import Mathlib

/-!
Shallow embedding of src/audio_processor.py (class AudioProcessor) and
verification of the specification's claims about it.

Samples are modelled as exact rationals (ℚ).  A loaded buffer is the 2-D
numpy array `audio_data`, modelled as a list of channel rows of equal width
(load_audio reshapes mono input to shape (1, n), so the array is always
2-D).  Numpy assignment of a 1-D value into one row of a 2-D array
(`self.audio_data[channel] = v`) keeps the value when it has the row's
length, broadcasts it across the row when it has length 1, and raises
ValueError otherwise; `rowAssign` captures exactly this, and `mapRowsE`
captures the per-channel mutation loops together with the surrounding
`try/except` that converts a raised error into a `False` return with the
already-processed rows kept.

External library numerics with no source in this repository (scipy's
filtfilt output, librosa's spectral features, the floating sqrt inside
np.std) are taken as explicit function parameters of the embedding: the
theorems below hold for every instantiation of those parameters, and no
claim under verification depends on their values — only on the validation,
dispatch and mutation structure of the methods, which is translated
faithfully from the source.
-/

/-- Maximum of a list of rationals with base 0.  Used only through
`rowPeak`/`peakAbs`, whose entries are absolute values, hence nonnegative,
so the base 0 agrees with np.max on nonempty data. -/
def listMax (l : List ℚ) : ℚ := l.foldr max 0

/-- Peak absolute value of one channel row: np.max(np.abs(row)). -/
def rowPeak (r : List ℚ) : ℚ := listMax (r.map (fun x => |x|))

/-- Buffer-wide peak absolute value: np.max(np.abs(audio_data)) on the
2-D array, i.e. over all channels flattened. -/
def peakAbs (rows : List (List ℚ)) : ℚ := listMax (rows.map rowPeak)

/-- np.max of a nonempty 1-D array (callers guard against emptiness). -/
def maxQ (l : List ℚ) : ℚ := l.foldl max (l.headD 0)

/-- np.min of a nonempty 1-D array (callers guard against emptiness). -/
def minQ (l : List ℚ) : ℚ := l.foldl min (l.headD 0)

/-- np.mean of a 1-D array. -/
def meanQ (l : List ℚ) : ℚ := l.sum / l.length

/-- Python str.lower(), modelled over the character list. -/
def pyLower (s : String) : String := String.mk (s.data.map Char.toLower)

/-- Python int() applied to a number: truncation toward zero. -/
def truncQ (q : ℚ) : ℤ := Int.tdiv q.num q.den

/-- np.linspace a b k: k evenly spaced points from a to b, endpoint
included (np.linspace's default). -/
def linspace (a b : ℚ) (k : ℕ) : List ℚ :=
  if k = 0 then []
  else if k = 1 then [a]
  else (List.range k).map (fun i : ℕ => a + (b - a) * (i : ℚ) / ((k : ℚ) - 1))

/-- Numpy assignment of a 1-D value into one row of a 2-D array
(`self.audio_data[channel] = new`): exact length stores the value, length 1
broadcasts it across the row, any other length raises ValueError (modelled
as `Except.error` carrying the unmodified row). -/
def rowAssign (orig new : List ℚ) : Except (List ℚ) (List ℚ) :=
  if new.length = orig.length then Except.ok new
  else if new.length = 1 then Except.ok (List.replicate orig.length (new.getD 0 0))
  else Except.error orig

/-- The per-channel mutation loop (`for channel in range(self.channels)`)
inside a `try` block: rows are updated in order; the first raising row
aborts the method (the `except` clause returns False) with the earlier rows
already updated and the raising row plus the remaining rows untouched. -/
def mapRowsE (f : List ℚ → Except (List ℚ) (List ℚ)) :
    List (List ℚ) → List (List ℚ) × Bool
  | [] => ([], true)
  | r :: rs =>
    match f r with
    | Except.error e => (e :: rs, false)
    | Except.ok r2 =>
      let q := mapRowsE f rs
      (r2 :: q.1, q.2)

/-- State of an AudioProcessor instance (fields set to None by __init__,
populated by load_audio). -/
structure Proc where
  audio_data : Option (List (List ℚ))
  sample_rate : Option ℚ
  duration : Option ℚ
  channels : Option ℕ
  deriving DecidableEq

/-- shape[1] of the 2-D audio array: the common row width. -/
def widthOf (rows : List (List ℚ)) : ℕ := (rows.headD []).length

/-- One channel of normalize_audio (source lines 117-121): take the
channel's peak; if it is positive, rescale the channel so its peak becomes
target_level.  np.max on a zero-size row raises (modelled as error). -/
def normRow (target_level : ℚ) (r : List ℚ) : Except (List ℚ) (List ℚ) :=
  if r.isEmpty then Except.error r
  else if 0 < rowPeak r then
    Except.ok (r.map (fun x => x / rowPeak r * target_level))
  else Except.ok r

/-- normalize_audio (source lines 107-128): per-channel normalization to
target_level (default 0.8); returns False untouched when no audio is
loaded. -/
def normalize_audio (p : Proc) (target_level : ℚ) : Proc × Bool :=
  match p.audio_data with
  | none => (p, false)
  | some rows =>
    let q := mapRowsE (normRow target_level) rows
    ({p with audio_data := some q.1}, q.2)

/-- apply_filter (source lines 130-162).  The scipy numerics are a
parameter: `filt` stands for `signal.filtfilt(b, a, row)` with the
designed Butterworth coefficients, and may itself raise (e.g. scipy's
padlen check on short signals), in which case the row is left unchanged
and the method returns False.  The validation structure is concrete:
scipy's `signal.butter` raises for a digital filter unless the normalized
cutoff lies strictly in (0, 1), and for btype 'band' it rejects the scalar
cutoff this method always passes (Wn must be a pair for bandpass); an
unrecognized filter type prints and returns False. -/
def apply_filter (filt : List ℚ → Except Unit (List ℚ)) (p : Proc)
    (filter_type : String) (cutoff_freq : ℚ) : Proc × Bool :=
  match p.audio_data with
  | none => (p, false)
  | some rows =>
    let nyquist := p.sample_rate.getD 0 / 2
    let normal_cutoff := cutoff_freq / nyquist
    let t := pyLower filter_type
    if t = "low" ∨ t = "high" then
      if 0 < normal_cutoff ∧ normal_cutoff < 1 then
        let q := mapRowsE (fun r =>
          match filt r with
          | Except.error _ => Except.error r
          | Except.ok fr => rowAssign r fr) rows
        ({p with audio_data := some q.1}, q.2)
      else (p, false)
    else if t = "band" then (p, false)
    else (p, false)

/-- change_volume (source lines 164-186): multiply the whole array by the
factor; then, if the buffer-wide peak exceeds 1.0, rescale the whole array
so the peak becomes 0.98.  np.max on a zero-size array raises, after the
multiplied array has already been stored (modelled by the size guard). -/
def change_volume (p : Proc) (volume_factor : ℚ) : Proc × Bool :=
  match p.audio_data with
  | none => (p, false)
  | some rows =>
    let scaled := rows.map (fun r => r.map (fun x => x * volume_factor))
    if ((scaled.map List.length).sum = 0) then
      ({p with audio_data := some scaled}, false)
    else
      let m := peakAbs scaled
      if 1 < m then
        let rescaled := scaled.map (fun r => r.map (fun x => x / m * (49/50)))
        ({p with audio_data := some rescaled}, true)
      else ({p with audio_data := some scaled}, true)

/-- np.mean(audio_data, axis=0): sample-wise average across channels. -/
def avgRows (rows : List (List ℚ)) : List ℚ :=
  (List.range (rows.headD []).length).map
    (fun j => (rows.map (fun r => r.getD j 0)).sum / rows.length)

/-- extract_features (source lines 188-247).  The library feature values
(librosa's zero-crossing rate, STFT-derived spectral features, MFCC,
chroma, tonnetz, and the floating sqrt inside np.std) are parameters; the
dictionary construction is concrete.  Returns None when no audio is
loaded; a zero-size mono signal raises at np.max (caught, returning None);
indexing audio_data[0] with no channels raises (caught, returning None).
The mfcc loop `for i in range(13)` adds keys mfcc_1 .. mfcc_13. -/
def extract_features (sqrtQ : ℚ → ℚ) (zcr : List ℚ → ℚ)
    (centroid bandwidth rolloff chroma tonnetzF : List ℚ → ℚ → ℚ)
    (mfcc : ℕ → List ℚ → ℚ → ℚ) (p : Proc) : Option (List (String × ℚ)) :=
  match p.audio_data with
  | none => none
  | some rows =>
    match rows with
    | [] => none
    | r0 :: rest =>
      let mono := if 1 < p.channels.getD 0 then avgRows (r0 :: rest) else r0
      if mono.isEmpty then none
      else
        let sr := p.sample_rate.getD 0
        some ([("mean", meanQ mono),
               ("std", sqrtQ (meanQ (mono.map (fun x => (x - meanQ mono) ^ 2)))),
               ("max", maxQ mono), ("min", minQ mono),
               ("zero_crossing_rate", zcr mono),
               ("spectral_centroid", centroid mono sr),
               ("spectral_bandwidth", bandwidth mono sr),
               ("spectral_rolloff", rolloff mono sr)]
          ++ (List.range 13).map (fun i => ("mfcc_" ++ toString (i + 1), mfcc i mono sr))
          ++ [("chroma_mean", chroma mono sr), ("tonnetz", tonnetzF mono sr)])

/-- The feature keys extract_features actually produces, in order. -/
def featureKeys : List String :=
  ["mean", "std", "max", "min", "zero_crossing_rate", "spectral_centroid",
   "spectral_bandwidth", "spectral_rolloff", "mfcc_1", "mfcc_2", "mfcc_3",
   "mfcc_4", "mfcc_5", "mfcc_6", "mfcc_7", "mfcc_8", "mfcc_9", "mfcc_10",
   "mfcc_11", "mfcc_12", "mfcc_13", "chroma_mean", "tonnetz"]

/-- One channel of trim_silence (source lines 377-388): np.where indices of
samples whose absolute value exceeds the threshold; if none, print a
warning and leave the row; otherwise assign the slice
row[start : end + 1] back into the fixed-width 2-D row (`rowAssign`
semantics: identity when the slice is the whole row, a broadcast filling
the row when the slice has length 1, ValueError otherwise). -/
def trimChannel (threshold : ℚ) (r : List ℚ) : Except (List ℚ) (List ℚ) :=
  let idx := (List.range r.length).filter (fun i => decide (threshold < |r.getD i 0|))
  match idx with
  | [] => Except.ok r
  | i :: _ => rowAssign r ((r.drop i).take (idx.getLastD 0 - i + 1))

/-- trim_silence (source lines 368-398): per-channel trim, then (only on
full success) duration is recomputed from shape[1]. -/
def trim_silence (p : Proc) (threshold : ℚ) : Proc × Bool :=
  match p.audio_data with
  | none => (p, false)
  | some rows =>
    let q := mapRowsE (trimChannel threshold) rows
    if q.2 then
      ({p with audio_data := some q.1,
               duration := some ((widthOf q.1 : ℚ) / p.sample_rate.getD 0)}, true)
    else ({p with audio_data := some q.1}, false)

/-- Fade-in step (source lines 414-416): multiply the first k samples by a
linear ramp np.linspace(0, 1, k). -/
def fadeInRow (k : ℕ) (r : List ℚ) : List ℚ :=
  (List.zipWith (fun x c => x * c) (r.take k) (linspace 0 1 k)) ++ r.drop k

/-- Fade-out step (source lines 418-421): multiply the last k samples by a
linear ramp np.linspace(1, 0, k). -/
def fadeOutRow (k : ℕ) (r : List ℚ) : List ℚ :=
  r.take (r.length - k) ++
    (List.zipWith (fun x c => x * c) (r.drop (r.length - k)) (linspace 1 0 k))

/-- One channel of fade_in_out: each ramp is applied only when its sample
count is positive (`if fade_in_samples > 0`), and the in-place slice
multiplication raises a broadcast error when the ramp is longer than the
row — in that case the fade-in already applied to this row is kept. -/
def fadeChannel (kin kout : ℤ) (r : List ℚ) : Except (List ℚ) (List ℚ) :=
  if 0 < kin ∧ r.length < kin.toNat then Except.error r
  else
    let r1 := if 0 < kin then fadeInRow kin.toNat r else r
    if 0 < kout ∧ r1.length < kout.toNat then Except.error r1
    else Except.ok (if 0 < kout then fadeOutRow kout.toNat r1 else r1)

/-- fade_in_out (source lines 400-428): ramp sample counts are
int(duration * sample_rate); no overlap validation of any kind is
performed before applying the ramps. -/
def fade_in_out (p : Proc) (fade_in_duration fade_out_duration : ℚ) : Proc × Bool :=
  match p.audio_data with
  | none => (p, false)
  | some rows =>
    let sr := p.sample_rate.getD 0
    let kin := truncQ (fade_in_duration * sr)
    let kout := truncQ (fade_out_duration * sr)
    let q := mapRowsE (fadeChannel kin kout) rows
    ({p with audio_data := some q.1}, q.2)

/-- Minimum of a nonempty list of naturals (0 for the empty list). -/
def natsMin (l : List ℕ) : ℕ :=
  match l with
  | [] => 0
  | x :: xs => xs.foldl min x

/-- Maximum of a list of naturals. -/
def natsMax (l : List ℕ) : ℕ :=
  match l with
  | [] => 0
  | x :: xs => xs.foldl max x

/-- Modelled from the spec: the union trim the specification prescribes for
trimSilence — "the buffer's trimmed region is the union (min-start,
max-end) across all channels so every channel stays the same length".
Every channel is cut to [min over channels of the first above-threshold
index, max over channels of the last above-threshold index].  This is the
spec's redesigned contract, stated here only to compare the source's
behavior against it. -/
def unionTrim (threshold : ℚ) (rows : List (List ℚ)) : List (List ℚ) :=
  let idxAll := rows.map (fun r =>
    (List.range r.length).filter (fun i => decide (threshold < |r.getD i 0|)))
  let present := idxAll.filter (fun l => !l.isEmpty)
  let s := natsMin (present.map (fun l => l.headD 0))
  let e := natsMax (present.map (fun l => l.getLastD 0))
  rows.map (fun r => (r.drop s).take (e - s + 1))

/-- A channel entirely at or below the threshold: trim_silence finds no
index to trim and prints the all-silent warning for it. -/
def allSilentRow (threshold : ℚ) (r : List ℚ) : Prop := ∀ x ∈ r, |x| ≤ threshold

/-- A channel whose first and last samples are both above the threshold:
its trimmed slice is the whole row. -/
def loudEndsRow (threshold : ℚ) (r : List ℚ) : Prop :=
  r ≠ [] ∧ threshold < |r.headD 0| ∧ threshold < |r.getLastD 0|

instance (threshold : ℚ) (r : List ℚ) : Decidable (allSilentRow threshold r) :=
  List.decidableBAll (fun x => |x| ≤ threshold) r

instance (threshold : ℚ) (r : List ℚ) : Decidable (loudEndsRow threshold r) :=
  inferInstanceAs (Decidable (r ≠ [] ∧ threshold < |r.headD 0| ∧
    threshold < |r.getLastD 0|))

/-! General lemmas about the helpers. -/

theorem listMax_nonneg (l : List ℚ) : 0 ≤ listMax l := by
  induction l with
  | nil => simp [listMax]
  | cons x xs ih =>
    simp only [listMax, List.foldr_cons] at ih ⊢
    exact le_trans ih (le_max_right x _)

theorem le_listMax_of_mem {l : List ℚ} {x : ℚ} (h : x ∈ l) : x ≤ listMax l := by
  induction l with
  | nil => cases h
  | cons y ys ih =>
    simp only [listMax, List.foldr_cons]
    rcases List.mem_cons.mp h with h1 | h1
    · exact h1 ▸ le_max_left _ _
    · exact le_trans (ih h1) (le_max_right _ _)

theorem listMax_le {l : List ℚ} {b : ℚ} (hb : 0 ≤ b) (h : ∀ x ∈ l, x ≤ b) :
    listMax l ≤ b := by
  induction l with
  | nil => simpa [listMax] using hb
  | cons y ys ih =>
    simp only [listMax, List.foldr_cons]
    exact max_le (h y (List.mem_cons_self y ys))
      (ih (fun x hx => h x (List.mem_cons_of_mem y hx)))

theorem listMax_mem {l : List ℚ} (h0 : ∀ x ∈ l, 0 ≤ x) (hne : l ≠ []) :
    listMax l ∈ l := by
  induction l with
  | nil => exact absurd rfl hne
  | cons y ys ih =>
    simp only [listMax, List.foldr_cons]
    rcases eq_or_ne ys [] with hys | hys
    · subst hys
      simp [listMax, max_eq_left (h0 y (List.mem_cons_self y []))]
    · have hmem := ih (fun x hx => h0 x (List.mem_cons_of_mem y hx)) hys
      rcases le_total (listMax ys) y with hle | hle
      · simp only [listMax] at hle ⊢
        rw [max_eq_left hle]
        exact List.mem_cons_self y ys
      · simp only [listMax] at hle ⊢
        rw [max_eq_right hle]
        exact List.mem_cons_of_mem y hmem

theorem rowPeak_nonneg (r : List ℚ) : 0 ≤ rowPeak r := listMax_nonneg _

theorem abs_le_rowPeak {r : List ℚ} {x : ℚ} (h : x ∈ r) : |x| ≤ rowPeak r :=
  le_listMax_of_mem (List.mem_map_of_mem _ h)

theorem rowPeak_le {r : List ℚ} {b : ℚ} (hb : 0 ≤ b) (h : ∀ x ∈ r, |x| ≤ b) :
    rowPeak r ≤ b := by
  refine listMax_le hb ?_
  intro y hy
  rcases List.mem_map.mp hy with ⟨x, hx, rfl⟩
  exact h x hx

theorem rowPeak_attained {r : List ℚ} (hne : r ≠ []) :
    ∃ x ∈ r, |x| = rowPeak r := by
  have h0 : ∀ y ∈ r.map (fun x => |x|), 0 ≤ y := by
    intro y hy
    rcases List.mem_map.mp hy with ⟨x, _, rfl⟩
    exact abs_nonneg x
  have hmem : listMax (r.map (fun x => |x|)) ∈ r.map (fun x => |x|) :=
    listMax_mem h0 (by simpa using hne)
  rcases List.mem_map.mp hmem with ⟨x, hx, hpk⟩
  exact ⟨x, hx, hpk⟩

theorem abs_le_peakAbs {rows : List (List ℚ)} {r : List ℚ} {x : ℚ}
    (hr : r ∈ rows) (hx : x ∈ r) : |x| ≤ peakAbs rows :=
  le_trans (abs_le_rowPeak hx) (le_listMax_of_mem (List.mem_map_of_mem _ hr))

theorem peakAbs_le {rows : List (List ℚ)} {b : ℚ} (hb : 0 ≤ b)
    (h : ∀ r ∈ rows, ∀ x ∈ r, |x| ≤ b) : peakAbs rows ≤ b := by
  refine listMax_le hb ?_
  intro y hy
  rcases List.mem_map.mp hy with ⟨r, hr, rfl⟩
  exact rowPeak_le hb (h r hr)

theorem peakAbs_attained {rows : List (List ℚ)}
    (hne : ∃ r ∈ rows, r ≠ []) : ∃ r ∈ rows, ∃ x ∈ r, |x| = peakAbs rows := by
  rcases hne with ⟨r0, hr0, hr0ne⟩
  have hrowsne : rows ≠ [] := by
    intro h
    subst h
    cases hr0
  have h0 : ∀ y ∈ rows.map rowPeak, 0 ≤ y := by
    intro y hy
    rcases List.mem_map.mp hy with ⟨r, _, rfl⟩
    exact rowPeak_nonneg r
  have hmem : listMax (rows.map rowPeak) ∈ rows.map rowPeak :=
    listMax_mem h0 (by simpa using hrowsne)
  rcases List.mem_map.mp hmem with ⟨r, hr, hpk⟩
  rcases eq_or_ne r [] with hrnil | hrnil
  · subst hrnil
    refine ⟨r0, hr0, ?_⟩
    have hz : peakAbs rows = 0 := by
      have h1 : rowPeak [] = 0 := by simp [rowPeak, listMax]
      simp only [peakAbs] at hpk ⊢
      rw [← hpk, h1]
    rcases List.exists_mem_of_ne_nil r0 hr0ne with ⟨x, hx⟩
    refine ⟨x, hx, ?_⟩
    have hle : |x| ≤ peakAbs rows := abs_le_peakAbs hr0 hx
    have hge : 0 ≤ |x| := abs_nonneg x
    rw [hz] at hle ⊢
    exact le_antisymm hle hge
  · rcases rowPeak_attained hrnil with ⟨x, hx, hxpk⟩
    exact ⟨r, hr, x, hx, by rw [hxpk]; exact hpk⟩

theorem mapRowsE_all_ok {f : List ℚ → Except (List ℚ) (List ℚ)}
    {g : List ℚ → List ℚ} {rows : List (List ℚ)}
    (h : ∀ r ∈ rows, f r = Except.ok (g r)) :
    mapRowsE f rows = (rows.map g, true) := by
  induction rows with
  | nil => rfl
  | cons r rs ih =>
    have hr := h r (List.mem_cons_self r rs)
    have hrest := ih (fun x hx => h x (List.mem_cons_of_mem r hx))
    simp [mapRowsE, hr, hrest]

theorem mapRowsE_forall2 {f : List ℚ → Except (List ℚ) (List ℚ)}
    {rows : List (List ℚ)} (h : (mapRowsE f rows).2 = true) :
    List.Forall₂ (fun r r2 => f r = Except.ok r2) rows (mapRowsE f rows).1 := by
  induction rows with
  | nil => exact List.Forall₂.nil
  | cons r rs ih =>
    cases hf : f r with
    | error e => simp [mapRowsE, hf] at h
    | ok r2 =>
      simp only [mapRowsE, hf] at h ⊢
      exact List.Forall₂.cons hf (ih h)

theorem forall2_getD {R : List ℚ → List ℚ → Prop} {l l2 : List (List ℚ)}
    (h : List.Forall₂ R l l2) :
    ∀ i, i < l.length → R (l.getD i []) (l2.getD i []) := by
  induction h with
  | nil => intro i hi; cases hi
  | cons hab htail ih =>
    intro i hi
    cases i with
    | zero => simpa using hab
    | succ j =>
      have hj : j < _ := Nat.lt_of_succ_lt_succ hi
      simpa using ih j hj

/-! Lemmas about trimChannel. -/

theorem rowAssign_ok_length {orig new r2 : List ℚ}
    (h : rowAssign orig new = Except.ok r2) : r2.length = orig.length := by
  unfold rowAssign at h
  by_cases h1 : new.length = orig.length
  · rw [if_pos h1] at h
    cases h
    exact h1
  · rw [if_neg h1] at h
    by_cases h2 : new.length = 1
    · rw [if_pos h2] at h
      cases h
      simp
    · rw [if_neg h2] at h
      cases h

theorem trimChannel_ok_length {threshold : ℚ} {r r2 : List ℚ}
    (h : trimChannel threshold r = Except.ok r2) : r2.length = r.length := by
  unfold trimChannel at h
  rcases hidx : (List.range r.length).filter
      (fun i => decide (threshold < |r.getD i 0|)) with _ | ⟨i, rest⟩ <;>
    rw [hidx] at h
  · cases h
    rfl
  · exact rowAssign_ok_length h

theorem trimChannel_allSilent {threshold : ℚ} {r : List ℚ}
    (h : allSilentRow threshold r) : trimChannel threshold r = Except.ok r := by
  unfold trimChannel
  have hnil : (List.range r.length).filter
      (fun i => decide (threshold < |r.getD i 0|)) = [] := by
    rw [List.filter_eq_nil_iff]
    intro i hi
    have hi2 : i < r.length := List.mem_range.mp hi
    rw [List.getD_eq_getElem r 0 hi2]
    simp only [decide_eq_true_eq, not_lt]
    exact h _ (List.getElem_mem hi2)
  rw [hnil]


theorem filter_head_last (threshold : ℚ) (r : List ℚ) (n : ℕ) (hn : r.length = n + 1)
    (hp0 : threshold < |r.getD 0 0|) (hpn : threshold < |r.getD n 0|) :
    ∃ tl, (List.range r.length).filter (fun i => decide (threshold < |r.getD i 0|)) =
      0 :: tl ∧ (0 :: tl).getLastD 0 = n := by
  rw [hn, List.range_succ, List.filter_append]
  have h2 : List.filter (fun i => decide (threshold < |r.getD i 0|)) [n] = [n] := by
    have hd : decide (threshold < |r.getD n 0|) = true := decide_eq_true hpn
    simp only [List.filter_cons, List.filter_nil, hd, eq_self_iff_true, if_true]
  rw [h2]
  cases n with
  | zero => exact ⟨[], by simp, rfl⟩
  | succ m =>
    rw [List.range_succ_eq_map]
    have h0 : List.filter (fun i => decide (threshold < |r.getD i 0|))
        (0 :: List.map Nat.succ (List.range m)) =
        0 :: List.filter (fun i => decide (threshold < |r.getD i 0|))
          (List.map Nat.succ (List.range m)) := by
      have hd : decide (threshold < |r.getD 0 0|) = true := decide_eq_true hp0
      simp only [List.filter_cons, hd, eq_self_iff_true, if_true]
    rw [h0]
    refine ⟨List.filter (fun i => decide (threshold < |r.getD i 0|))
      (List.map Nat.succ (List.range m)) ++ [m + 1], rfl, ?_⟩
    rw [← List.cons_append, List.getLastD_concat]

theorem trimChannel_loudEnds {threshold : ℚ} {r : List ℚ}
    (h : loudEndsRow threshold r) : trimChannel threshold r = Except.ok r := by
  obtain ⟨hne, hhead, hlast⟩ := h
  obtain ⟨n, hn⟩ : ∃ n, r.length = n + 1 := by
    cases hr : r.length with
    | zero => exact absurd (List.length_eq_zero.mp hr) hne
    | succ n => exact ⟨n, rfl⟩
  have hp0 : threshold < |r.getD 0 0| := by
    have hh : r.getD 0 0 = r.headD 0 := by
      cases r with
      | nil => rfl
      | cons a l => rfl
    rw [hh]
    exact hhead
  have hpn : threshold < |r.getD n 0| := by
    have hlt : n < r.length := by omega
    have hgl : r.getLastD 0 = r.getD n 0 := by
      rw [List.getD_eq_getElem r 0 hlt]
      rw [List.getLastD_eq_getLast?, List.getLast?_eq_getElem?]
      have h1 : r.length - 1 = n := by omega
      rw [h1]
      simp [List.getElem?_eq_getElem hlt]
    rw [← hgl]
    exact hlast
  obtain ⟨tl, htl, hld⟩ := filter_head_last threshold r n hn hp0 hpn
  unfold trimChannel
  rw [htl]
  simp only [hld]
  have hslice : (r.drop 0).take (n - 0 + 1) = r := by
    simp only [List.drop_zero, Nat.sub_zero]
    rw [← hn, List.take_length]
  rw [hslice]
  unfold rowAssign
  rw [if_pos rfl]

/-! Lemmas about the fade helpers. -/

theorem linspace_length (a b : ℚ) (k : ℕ) : (linspace a b k).length = k := by
  unfold linspace
  by_cases h0 : k = 0
  · simp [h0]
  · rw [if_neg h0]
    by_cases h1 : k = 1
    · simp [h1]
    · rw [if_neg h1]
      rw [List.length_map, List.length_range]

theorem fadeInRow_length {k : ℕ} {r : List ℚ} (h : k ≤ r.length) :
    (fadeInRow k r).length = r.length := by
  simp only [fadeInRow, List.length_append, List.length_zipWith, List.length_take,
    List.length_drop, linspace_length]
  omega

theorem fadeOutRow_length {k : ℕ} {r : List ℚ} (h : k ≤ r.length) :
    (fadeOutRow k r).length = r.length := by
  simp only [fadeOutRow, List.length_append, List.length_zipWith, List.length_take,
    List.length_drop, linspace_length]
  omega

theorem fadeChannel_ok (kin kout : ℤ) (r : List ℚ)
    (hin : kin.toNat ≤ r.length) (hout : kout.toNat ≤ r.length) :
    ∃ r2, fadeChannel kin kout r = Except.ok r2 ∧ r2.length = r.length := by
  have hr1 : (if 0 < kin then fadeInRow kin.toNat r else r).length = r.length := by
    by_cases h : 0 < kin
    · rw [if_pos h]
      exact fadeInRow_length hin
    · rw [if_neg h]
  have hc1 : ¬(0 < kin ∧ r.length < kin.toNat) := by omega
  have hc2 : ¬(0 < kout ∧
      (if 0 < kin then fadeInRow kin.toNat r else r).length < kout.toNat) := by
    rw [hr1]
    omega
  have hr2 : (if 0 < kout then
      fadeOutRow kout.toNat (if 0 < kin then fadeInRow kin.toNat r else r)
      else (if 0 < kin then fadeInRow kin.toNat r else r)).length = r.length := by
    by_cases h : 0 < kout
    · rw [if_pos h]
      rw [fadeOutRow_length]
      · exact hr1
      · rw [hr1]
        exact hout
    · rw [if_neg h]
      exact hr1
  refine ⟨_, ?_, hr2⟩
  simp only [fadeChannel]
  rw [if_neg hc1, if_neg hc2]

theorem mapRowsE_true {f : List ℚ → Except (List ℚ) (List ℚ)}
    {rows : List (List ℚ)} (h : ∀ r ∈ rows, ∃ r2, f r = Except.ok r2) :
    (mapRowsE f rows).2 = true := by
  induction rows with
  | nil => rfl
  | cons r rs ih =>
    obtain ⟨r2, hr2⟩ := h r (List.mem_cons_self r rs)
    have hrest := ih (fun x hx => h x (List.mem_cons_of_mem r hx))
    simp [mapRowsE, hr2, hrest]

/-! Unfolding helpers for the stateful operations. -/

theorem trim_silence_spec (threshold : ℚ) {p : Proc} {rows : List (List ℚ)}
    (h : p.audio_data = some rows) :
    (trim_silence p threshold).2 = (mapRowsE (trimChannel threshold) rows).2 ∧
    (trim_silence p threshold).1.audio_data =
      some (mapRowsE (trimChannel threshold) rows).1 := by
  unfold trim_silence
  rw [h]
  cases hq : (mapRowsE (trimChannel threshold) rows).2 <;> simp [hq]

theorem trim_success_rows (threshold : ℚ) {p : Proc} {rows : List (List ℚ)}
    (h : p.audio_data = some rows) (hs : (trim_silence p threshold).2 = true) :
    ∃ rows2, (trim_silence p threshold).1.audio_data = some rows2 ∧
      List.Forall₂ (fun r r2 => trimChannel threshold r = Except.ok r2) rows rows2 := by
  obtain ⟨h2, h1⟩ := trim_silence_spec threshold h
  refine ⟨(mapRowsE (trimChannel threshold) rows).1, h1, ?_⟩
  apply mapRowsE_forall2
  rw [← h2]
  exact hs

theorem normalize_audio_spec (target_level : ℚ) {p : Proc} {rows : List (List ℚ)}
    (h : p.audio_data = some rows) :
    normalize_audio p target_level =
      ({p with audio_data := some (mapRowsE (normRow target_level) rows).1},
        (mapRowsE (normRow target_level) rows).2) := by
  unfold normalize_audio
  rw [h]

theorem fade_in_out_spec (fade_in_duration fade_out_duration : ℚ) {p : Proc}
    {rows : List (List ℚ)} (h : p.audio_data = some rows) :
    fade_in_out p fade_in_duration fade_out_duration =
      ({p with audio_data := some (mapRowsE
          (fadeChannel (truncQ (fade_in_duration * p.sample_rate.getD 0))
            (truncQ (fade_out_duration * p.sample_rate.getD 0))) rows).1},
        (mapRowsE (fadeChannel (truncQ (fade_in_duration * p.sample_rate.getD 0))
          (truncQ (fade_out_duration * p.sample_rate.getD 0))) rows).2) := by
  unfold fade_in_out
  rw [h]

/-! Arithmetic helpers for the peak theorems. -/

theorem abs_scale_le {x m c : ℚ} (hm : 0 < m) (hc : 0 ≤ c) (hx : |x| ≤ m) :
    |x / m * c| ≤ c := by
  rw [abs_mul, abs_div, abs_of_nonneg hc, abs_of_pos hm]
  calc |x| / m * c ≤ 1 * c := by
        apply mul_le_mul_of_nonneg_right _ hc
        rw [div_le_one hm]
        exact hx
    _ = c := one_mul c

theorem abs_scale_eq {x m c : ℚ} (hm : 0 < m) (hc : 0 ≤ c) (hx : |x| = m) :
    |x / m * c| = c := by
  rw [abs_mul, abs_div, abs_of_nonneg hc, abs_of_pos hm, hx,
    div_self (ne_of_gt hm), one_mul]

theorem exists_ne_nil_of_sum_ne_zero {rows : List (List ℚ)}
    (h : (rows.map List.length).sum ≠ 0) : ∃ r ∈ rows, r ≠ [] := by
  by_contra hc
  push_neg at hc
  apply h
  rw [List.sum_eq_zero_iff]
  intro x hx
  rcases List.mem_map.mp hx with ⟨r, hr, rfl⟩
  rw [List.length_eq_zero]
  exact hc r hr

theorem rowPeak_norm {r : List ℚ} {t : ℚ} (hne : r ≠ []) (hpk : 0 < rowPeak r)
    (ht : 0 < t) : rowPeak (r.map (fun x => x / rowPeak r * t)) = t := by
  apply le_antisymm
  · apply rowPeak_le (le_of_lt ht)
    intro y hy
    rcases List.mem_map.mp hy with ⟨x, hx, rfl⟩
    exact abs_scale_le hpk (le_of_lt ht) (abs_le_rowPeak hx)
  · rcases rowPeak_attained hne with ⟨x, hx, hxeq⟩
    calc t = |x / rowPeak r * t| := (abs_scale_eq hpk (le_of_lt ht) hxeq).symm
      _ ≤ rowPeak (r.map fun x => x / rowPeak r * t) :=
        abs_le_rowPeak (List.mem_map_of_mem _ hx)

theorem getD_map_lt {l : List (List ℚ)} (g : List ℚ → List ℚ) {i : ℕ}
    (h : i < l.length) : (l.map g).getD i [] = g (l.getD i []) := by
  rw [List.getD_eq_getElem l [] h,
    List.getD_eq_getElem (l.map g) [] (by simpa using h)]
  exact List.getElem_map g

theorem forall2_mem_right {R : List ℚ → List ℚ → Prop} {l l2 : List (List ℚ)}
    (h : List.Forall₂ R l l2) : ∀ r2 ∈ l2, ∃ r ∈ l, R r r2 := by
  induction h with
  | nil => intro r2 hr2; cases hr2
  | cons hab ht ih =>
    intro r2 hr2
    rcases List.mem_cons.mp hr2 with rfl | hr2
    · exact ⟨_, List.mem_cons_self _ _, hab⟩
    · rcases ih r2 hr2 with ⟨r, hr, hR⟩
      exact ⟨r, List.mem_cons_of_mem _ hr, hR⟩

/-! The claims. -/

/-- C3: a band-pass request through apply_filter — which can only ever pass
its single scalar cutoff into the scipy design call — always fails, and
leaves the processor state unchanged, for every state, cutoff and filtfilt
implementation.  (In the source there is no two-cutoff code path at all, so
no band design is ever valid; failure is signalled as the method's False
return.) -/
theorem applyFilter_band_fails (filt : List ℚ → Except Unit (List ℚ))
    (p : Proc) (cutoff_freq : ℚ) :
    apply_filter filt p "band" cutoff_freq = (p, false) := by
  have h1 : ¬(pyLower "band" = "low" ∨ pyLower "band" = "high") := by decide
  have h2 : pyLower "band" = "band" := by decide
  cases hp : p.audio_data with
  | none =>
    unfold apply_filter
    rw [hp]
  | some rows =>
    simp only [apply_filter, hp]
    rw [if_neg h1, if_pos h2]

/-- C8: fading with zero fade-in and zero fade-out durations is the
identity transform on every loaded processor: state and success flag are
exactly those of a no-op. -/
theorem fadeInOut_zero_identity (p : Proc) (rows : List (List ℚ))
    (h : p.audio_data = some rows) : fade_in_out p 0 0 = (p, true) := by
  have hspec := fade_in_out_spec 0 0 h
  have htr : truncQ (0 * p.sample_rate.getD 0) = 0 := by
    rw [zero_mul]
    rfl
  rw [htr] at hspec
  have hok : ∀ r ∈ rows, fadeChannel 0 0 r = Except.ok (id r) := by
    intro r _
    unfold fadeChannel
    simp
  rw [mapRowsE_all_ok hok, List.map_id] at hspec
  rw [hspec]
  obtain ⟨ad, sr, du, ch⟩ := p
  change ad = some rows at h
  subst h
  rfl

unseal Rat.add Rat.sub Rat.mul Rat.inv Rat.ofScientific in
/-- C8 witness: the zero-fade identity at a concrete loaded buffer. -/
theorem fadeInOut_zero_identity_witness :
    (⟨some [[1, 2, 3]], some 1, some 3, some 1⟩ : Proc).audio_data = some [[1, 2, 3]] ∧
    fade_in_out ⟨some [[1, 2, 3]], some 1, some 3, some 1⟩ 0 0 =
      (⟨some [[1, 2, 3]], some 1, some 3, some 1⟩, true) :=
  ⟨rfl, fadeInOut_zero_identity ⟨some [[1, 2, 3]], some 1, some 3, some 1⟩ [[1, 2, 3]] rfl⟩

/-- C10: every modelled operation invoked before any audio is loaded
(audio_data is None, as __init__ leaves it) returns its failure result —
False for the mutating operations, None for extract_features — without
raising and without modifying any processor state. -/
theorem unloaded_ops_fail (p : Proc) (h : p.audio_data = none)
    (target_level : ℚ) (filt : List ℚ → Except Unit (List ℚ))
    (filter_type : String) (cutoff_freq volume_factor threshold : ℚ)
    (din dout : ℚ) (sqrtQ : ℚ → ℚ) (zcr : List ℚ → ℚ)
    (centroid bandwidth rolloff chroma tonnetzF : List ℚ → ℚ → ℚ)
    (mfcc : ℕ → List ℚ → ℚ → ℚ) :
    normalize_audio p target_level = (p, false) ∧
    apply_filter filt p filter_type cutoff_freq = (p, false) ∧
    change_volume p volume_factor = (p, false) ∧
    trim_silence p threshold = (p, false) ∧
    fade_in_out p din dout = (p, false) ∧
    extract_features sqrtQ zcr centroid bandwidth rolloff chroma tonnetzF mfcc p
      = none := by
  refine ⟨?_, ?_, ?_, ?_, ?_, ?_⟩
  · unfold normalize_audio
    rw [h]
  · unfold apply_filter
    rw [h]
  · unfold change_volume
    rw [h]
  · unfold trim_silence
    rw [h]
  · unfold fade_in_out
    rw [h]
  · unfold extract_features
    rw [h]

/-- C10 witness: the fresh state ⟨none, none, none, none⟩ at concrete
operation parameters. -/
theorem unloaded_ops_fail_witness :
    (⟨none, none, none, none⟩ : Proc).audio_data = none ∧
    (normalize_audio ⟨none, none, none, none⟩ (4/5) =
        (⟨none, none, none, none⟩, false) ∧
      apply_filter (fun r => Except.ok r) ⟨none, none, none, none⟩ "low" 1000 =
        (⟨none, none, none, none⟩, false) ∧
      change_volume ⟨none, none, none, none⟩ 2 = (⟨none, none, none, none⟩, false) ∧
      trim_silence ⟨none, none, none, none⟩ (1/100) =
        (⟨none, none, none, none⟩, false) ∧
      fade_in_out ⟨none, none, none, none⟩ (1/10) (1/10) =
        (⟨none, none, none, none⟩, false) ∧
      extract_features (fun x => x) (fun _ => 0) (fun _ _ => 0) (fun _ _ => 0)
        (fun _ _ => 0) (fun _ _ => 0) (fun _ _ => 0) (fun _ _ _ => 0)
        ⟨none, none, none, none⟩ = none) :=
  ⟨rfl, unloaded_ops_fail ⟨none, none, none, none⟩ rfl (4/5) (fun r => Except.ok r)
    "low" 1000 2 (1/100) (1/10) (1/10) (fun x => x) (fun _ => 0) (fun _ _ => 0)
    (fun _ _ => 0) (fun _ _ => 0) (fun _ _ => 0) (fun _ _ => 0) (fun _ _ _ => 0)⟩

unseal Rat.add Rat.sub Rat.mul Rat.inv Rat.ofScientific in
/-- C1 counterexample: a loaded buffer whose single sample is 0.99, with
volume factor 1.  change_volume succeeds, the post-multiply peak 0.99 does
not exceed 1.0 so no clip prevention runs, and the buffer-wide peak after
the call is 0.99, strictly above the claimed bound 0.98. -/
theorem changeVolume_claim_counterexample :
    (change_volume ⟨some [[99/100]], some 1, some 1, some 1⟩ 1).2 = true ∧
    (change_volume ⟨some [[99/100]], some 1, some 1, some 1⟩ 1).1.audio_data =
      some [[99/100]] ∧
    ¬ peakAbs [[99/100]] ≤ 49/50 := by
  refine ⟨by decide, by decide, by decide⟩

/-- C1 amended: after a successful change_volume on a loaded nonempty
buffer the buffer-wide peak is at most 1.0 (not 0.98); the rescale to
exactly 0.98 happens only when the post-multiply peak exceeds 1.0. -/
theorem changeVolume_clip_bound (p : Proc) (volume_factor : ℚ)
    (rows : List (List ℚ)) (h : p.audio_data = some rows)
    (hne : (rows.map List.length).sum ≠ 0) :
    (change_volume p volume_factor).2 = true ∧
    ∃ rows2, (change_volume p volume_factor).1.audio_data = some rows2 ∧
      peakAbs rows2 ≤ 1 ∧
      (1 < peakAbs (rows.map (fun r => r.map (fun x => x * volume_factor))) →
        peakAbs rows2 = 49/50) := by
  have hlen : ((rows.map (fun r => r.map (fun x => x * volume_factor))).map
      List.length).sum = (rows.map List.length).sum := by
    simp [List.map_map, Function.comp_def]
  simp only [change_volume, h]
  rw [if_neg (by rw [hlen]; exact hne)]
  set scaled := rows.map (fun r => r.map (fun x => x * volume_factor)) with hscaled
  by_cases hm : 1 < peakAbs scaled
  · rw [if_pos hm]
    have hmpos : 0 < peakAbs scaled := lt_trans one_pos hm
    have hc : (0:ℚ) ≤ 49/50 := by norm_num
    constructor
    · rfl
    · refine ⟨scaled.map (fun r => r.map (fun x => x / peakAbs scaled * (49/50))),
        rfl, ?_, ?_⟩
      · -- peak of the rescaled buffer equals 0.98 hence ≤ 1
        have hble : peakAbs (scaled.map (fun r =>
            r.map (fun x => x / peakAbs scaled * (49/50)))) ≤ 49/50 := by
          apply peakAbs_le hc
          intro r2 hr2 y hy
          rcases List.mem_map.mp hr2 with ⟨r, hr, rfl⟩
          rcases List.mem_map.mp hy with ⟨x, hx, rfl⟩
          exact abs_scale_le hmpos hc (abs_le_peakAbs hr hx)
        calc peakAbs _ ≤ 49/50 := hble
          _ ≤ 1 := by norm_num
      · intro _
        apply le_antisymm
        · apply peakAbs_le hc
          intro r2 hr2 y hy
          rcases List.mem_map.mp hr2 with ⟨r, hr, rfl⟩
          rcases List.mem_map.mp hy with ⟨x, hx, rfl⟩
          exact abs_scale_le hmpos hc (abs_le_peakAbs hr hx)
        · have hnescaled : ∃ r ∈ scaled, r ≠ [] := by
            apply exists_ne_nil_of_sum_ne_zero
            rw [hlen]
            exact hne
          rcases peakAbs_attained hnescaled with ⟨r, hr, x, hx, hxeq⟩
          have hmem2 : x / peakAbs scaled * (49/50) ∈
              r.map (fun y => y / peakAbs scaled * (49/50)) :=
            List.mem_map_of_mem _ hx
          have hmemr : r.map (fun y => y / peakAbs scaled * (49/50)) ∈
              scaled.map (fun r => r.map (fun y => y / peakAbs scaled * (49/50))) :=
            List.mem_map_of_mem _ hr
          calc (49:ℚ)/50 = |x / peakAbs scaled * (49/50)| :=
              (abs_scale_eq hmpos hc hxeq).symm
            _ ≤ peakAbs (scaled.map (fun r =>
                r.map (fun y => y / peakAbs scaled * (49/50)))) :=
              abs_le_peakAbs hmemr hmem2
  · rw [if_neg hm]
    exact ⟨rfl, scaled, rfl, le_of_not_lt hm, fun hcon => absurd hcon hm⟩

unseal Rat.add Rat.sub Rat.mul Rat.inv Rat.ofScientific in
/-- C1 witness: a loaded single-sample buffer with value 2 and factor 1;
the clip-prevention rescale fires and the resulting peak is exactly 0.98. -/
theorem changeVolume_clip_bound_witness :
    (⟨some [[2]], some 1, some 1, some 1⟩ : Proc).audio_data = some [[2]] ∧
    (([[2]] : List (List ℚ)).map List.length).sum ≠ 0 ∧
    ((change_volume ⟨some [[2]], some 1, some 1, some 1⟩ 1).2 = true ∧
      ∃ rows2, (change_volume ⟨some [[2]], some 1, some 1, some 1⟩ 1).1.audio_data =
          some rows2 ∧ peakAbs rows2 ≤ 1 ∧
        (1 < peakAbs (([[2]] : List (List ℚ)).map (fun r => r.map (fun x => x * 1))) →
          peakAbs rows2 = 49/50)) :=
  ⟨rfl, by decide,
    changeVolume_clip_bound ⟨some [[2]], some 1, some 1, some 1⟩ 1 [[2]] rfl (by decide)⟩

unseal Rat.add Rat.sub Rat.mul Rat.inv Rat.ofScientific in
/-- C2 counterexample: a loaded 4-sample buffer at 1 Hz (duration 4 s) with
fadeIn = fadeOut = 3 s, so fadeIn + fadeOut = 6 s exceeds the duration.
fade_in_out does not fail: it returns True and silently applies both
overlapping ramps, changing the samples. -/
theorem fadeInOut_overlap_counterexample :
    ((truncQ ((3:ℚ) * 1)).toNat + (truncQ ((3:ℚ) * 1)).toNat > 4) ∧
    (fade_in_out ⟨some [[1, 1, 1, 1]], some 1, some 4, some 1⟩ 3 3).2 = true ∧
    (fade_in_out ⟨some [[1, 1, 1, 1]], some 1, some 4, some 1⟩ 3 3).1.audio_data =
      some [[0, 1/2, 1/2, 0]] ∧
    ¬ (fade_in_out ⟨some [[1, 1, 1, 1]], some 1, some 4, some 1⟩ 3 3).1.audio_data =
      some [[1, 1, 1, 1]] := by
  refine ⟨by decide, by decide, by decide, by decide⟩

/-- C2 amended: fade_in_out performs no overlap validation.  Whenever each
ramp individually fits in the channel width, the operation succeeds (returns
True), even when the fade-in and fade-out sample counts together exceed the
buffer length, i.e. overlapping ramps are silently applied rather than
rejected with InvalidDuration. -/
theorem fadeInOut_overlap_silently_applied (p : Proc) (rows : List (List ℚ))
    (sr : ℚ) (w : ℕ) (din dout : ℚ) (h : p.audio_data = some rows)
    (hs : p.sample_rate = some sr) (hw : ∀ r ∈ rows, r.length = w)
    (hin : (truncQ (din * sr)).toNat ≤ w) (hout : (truncQ (dout * sr)).toNat ≤ w)
    (_hover : w < (truncQ (din * sr)).toNat + (truncQ (dout * sr)).toNat) :
    (fade_in_out p din dout).2 = true := by
  have hspec := fade_in_out_spec din dout h
  rw [hs] at hspec
  simp only [Option.getD_some] at hspec
  rw [hspec]
  apply mapRowsE_true
  intro r hr
  obtain ⟨r2, hok, _⟩ := fadeChannel_ok (truncQ (din * sr)) (truncQ (dout * sr)) r
    (by rw [hw r hr]; exact hin) (by rw [hw r hr]; exact hout)
  exact ⟨r2, hok⟩

unseal Rat.add Rat.sub Rat.mul Rat.inv Rat.ofScientific in
/-- C2 witness: the amended statement at the concrete overlapping input of
the counterexample (4 samples, two 3-sample ramps). -/
theorem fadeInOut_overlap_silently_applied_witness :
    (⟨some [[1, 1, 1, 1]], some 1, some 4, some 1⟩ : Proc).audio_data =
      some [[1, 1, 1, 1]] ∧
    (⟨some [[1, 1, 1, 1]], some 1, some 4, some 1⟩ : Proc).sample_rate = some 1 ∧
    (∀ r ∈ ([[1, 1, 1, 1]] : List (List ℚ)), r.length = 4) ∧
    (truncQ ((3:ℚ) * 1)).toNat ≤ 4 ∧
    4 < (truncQ ((3:ℚ) * 1)).toNat + (truncQ ((3:ℚ) * 1)).toNat ∧
    (fade_in_out ⟨some [[1, 1, 1, 1]], some 1, some 4, some 1⟩ 3 3).2 = true :=
  ⟨rfl, rfl, by decide, by decide, by decide,
    fadeInOut_overlap_silently_applied ⟨some [[1, 1, 1, 1]], some 1, some 4, some 1⟩
      [[1, 1, 1, 1]] 1 4 3 3 rfl rfl (by decide) (by decide) (by decide) (by decide)⟩

unseal Rat.add Rat.sub Rat.mul Rat.inv Rat.ofScientific in
/-- C4 counterexample: a loaded buffer whose only channel is entirely at or
below the threshold.  trim_silence does not fail with AllSilence: it
returns True (success) and leaves the samples unchanged, merely printing a
warning. -/
theorem trimSilence_allSilent_counterexample :
    (∀ x ∈ ([0, 0] : List ℚ), |x| ≤ 1/100) ∧
    (trim_silence ⟨some [[0, 0]], some 1, some 2, some 1⟩ (1/100)).2 = true ∧
    (trim_silence ⟨some [[0, 0]], some 1, some 2, some 1⟩ (1/100)).1.audio_data =
      some [[0, 0]] := by
  refine ⟨by decide, by decide, by decide⟩

/-- C4 amended: when every channel of a loaded buffer is entirely at or
below the threshold, trim_silence succeeds (returns True) and leaves every
sample unchanged, reporting the silent channels only through printed
warnings; it does not fail with AllSilence.  Moreover a channel that is
entirely at or below the threshold is always left unchanged by its trim
step and never itself aborts the operation. -/
theorem trimSilence_allSilent_succeeds (p : Proc) (rows : List (List ℚ))
    (threshold : ℚ) (h : p.audio_data = some rows)
    (hs : ∀ r ∈ rows, allSilentRow threshold r) :
    (trim_silence p threshold).2 = true ∧
    (trim_silence p threshold).1.audio_data = some rows ∧
    ∀ r, allSilentRow threshold r → trimChannel threshold r = Except.ok r := by
  have hok : ∀ r ∈ rows, trimChannel threshold r = Except.ok (id r) := by
    intro r hr
    simpa using trimChannel_allSilent (hs r hr)
  have hmap := mapRowsE_all_ok hok
  obtain ⟨h2, h1⟩ := trim_silence_spec threshold h
  rw [hmap] at h1 h2
  rw [List.map_id] at h1
  exact ⟨h2, h1, fun r hr => trimChannel_allSilent hr⟩

unseal Rat.add Rat.sub Rat.mul Rat.inv Rat.ofScientific in
/-- C4 witness: a concrete two-channel all-silent buffer. -/
theorem trimSilence_allSilent_succeeds_witness :
    (⟨some [[0], [0]], some 1, some 1, some 2⟩ : Proc).audio_data = some [[0], [0]] ∧
    (∀ r ∈ ([[0], [0]] : List (List ℚ)), allSilentRow (1/10) r) ∧
    ((trim_silence ⟨some [[0], [0]], some 1, some 1, some 2⟩ (1/10)).2 = true ∧
      (trim_silence ⟨some [[0], [0]], some 1, some 1, some 2⟩ (1/10)).1.audio_data =
        some [[0], [0]] ∧
      ∀ r, allSilentRow (1/10) r → trimChannel (1/10) r = Except.ok r) :=
  ⟨rfl, by decide,
    trimSilence_allSilent_succeeds ⟨some [[0], [0]], some 1, some 1, some 2⟩
      [[0], [0]] (1/10) rfl (by decide)⟩

unseal Rat.add Rat.sub Rat.mul Rat.inv Rat.ofScientific in
/-- C5 counterexample: stereo buffer [[0, 1/2], [1/2, 0]] at threshold
0.01.  The union of the per-channel non-silent ranges is the whole buffer
(channel 0 is non-silent at index 1, channel 1 at index 0), so the
spec-modelled unionTrim leaves the buffer unchanged; but trim_silence
succeeds having processed each channel independently (the length-1 trimmed
slices broadcast across the fixed-width rows), producing
[[1/2, 1/2], [1/2, 1/2]] ≠ unionTrim of the input. -/
theorem trimSilence_union_counterexample :
    (trim_silence ⟨some [[0, 1/2], [1/2, 0]], some 1, some 2, some 2⟩ (1/100)).2 =
      true ∧
    (trim_silence ⟨some [[0, 1/2], [1/2, 0]], some 1, some 2, some 2⟩
        (1/100)).1.audio_data = some [[1/2, 1/2], [1/2, 1/2]] ∧
    unionTrim (1/100) [[0, 1/2], [1/2, 0]] = [[0, 1/2], [1/2, 0]] ∧
    ¬ (trim_silence ⟨some [[0, 1/2], [1/2, 0]], some 1, some 2, some 2⟩
        (1/100)).1.audio_data =
      some (unionTrim (1/100) [[0, 1/2], [1/2, 0]]) := by
  refine ⟨by decide, by decide, by decide, by decide⟩

/-- C5 amended: trim_silence does not trim to the union region — each
channel is processed independently — but on success every channel keeps its
original length (the rows of the fixed-width 2-D array are never
shortened), so all channel sequences still have identical length when the
operation returns. -/
theorem trimSilence_success_lengths (p : Proc) (rows : List (List ℚ))
    (threshold : ℚ) (w : ℕ) (h : p.audio_data = some rows)
    (hw : ∀ r ∈ rows, r.length = w) (hs : (trim_silence p threshold).2 = true) :
    ∃ rows2, (trim_silence p threshold).1.audio_data = some rows2 ∧
      rows2.length = rows.length ∧ ∀ r2 ∈ rows2, r2.length = w := by
  obtain ⟨rows2, h1, hf⟩ := trim_success_rows threshold h hs
  refine ⟨rows2, h1, (List.Forall₂.length_eq hf).symm, ?_⟩
  intro r2 hr2
  obtain ⟨r, hr, hR⟩ := forall2_mem_right hf r2 hr2
  rw [trimChannel_ok_length hR]
  exact hw r hr

unseal Rat.add Rat.sub Rat.mul Rat.inv Rat.ofScientific in
/-- C5 witness: a successful trim on a concrete stereo buffer keeps both
channels at their common width. -/
theorem trimSilence_success_lengths_witness :
    (⟨some [[1, 1], [1, 1]], some 1, some 2, some 2⟩ : Proc).audio_data =
      some [[1, 1], [1, 1]] ∧
    (∀ r ∈ ([[1, 1], [1, 1]] : List (List ℚ)), r.length = 2) ∧
    (trim_silence ⟨some [[1, 1], [1, 1]], some 1, some 2, some 2⟩ (1/100)).2 = true ∧
    ∃ rows2, (trim_silence ⟨some [[1, 1], [1, 1]], some 1, some 2, some 2⟩
        (1/100)).1.audio_data = some rows2 ∧
      rows2.length = ([[1, 1], [1, 1]] : List (List ℚ)).length ∧
      ∀ r2 ∈ rows2, r2.length = 2 :=
  ⟨rfl, by decide, by decide,
    trimSilence_success_lengths ⟨some [[1, 1], [1, 1]], some 1, some 2, some 2⟩
      [[1, 1], [1, 1]] (1/100) 2 rfl (by decide) (by decide)⟩

/-- C9: trim_silence can never actually shorten a loaded buffer.  On
success every channel keeps its length, and every channel that is entirely
at/below threshold or has an above-threshold sample at both ends keeps its
samples unchanged; otherwise the operation reports failure (returns
False).  (The only successful sample change is the numpy broadcast of a
length-1 trimmed slice across its fixed-width row.) -/
theorem trimSilence_never_shortens (p : Proc) (rows : List (List ℚ))
    (threshold : ℚ) (h : p.audio_data = some rows)
    (hs : (trim_silence p threshold).2 = true) :
    ∃ rows2, (trim_silence p threshold).1.audio_data = some rows2 ∧
      rows2.length = rows.length ∧
      ∀ i, (rows2.getD i []).length = (rows.getD i []).length ∧
        ((allSilentRow threshold (rows.getD i []) ∨
            loudEndsRow threshold (rows.getD i [])) →
          rows2.getD i [] = rows.getD i []) := by
  obtain ⟨rows2, h1, hf⟩ := trim_success_rows threshold h hs
  have hlen := List.Forall₂.length_eq hf
  refine ⟨rows2, h1, hlen.symm, ?_⟩
  intro i
  by_cases hi : i < rows.length
  · have hR := forall2_getD hf i hi
    constructor
    · exact trimChannel_ok_length hR
    · intro hprot
      have hok : trimChannel threshold (rows.getD i []) =
          Except.ok (rows.getD i []) := by
        rcases hprot with hsil | hle
        · exact trimChannel_allSilent hsil
        · exact trimChannel_loudEnds hle
      injection hok.symm.trans hR with heq
      exact heq.symm
  · have hd1 : rows.getD i [] = [] :=
      List.getD_eq_default rows [] (le_of_not_lt hi)
    have hd2 : rows2.getD i [] = [] :=
      List.getD_eq_default rows2 [] (by omega)
    rw [hd1, hd2]
    exact ⟨rfl, fun _ => rfl⟩

unseal Rat.add Rat.sub Rat.mul Rat.inv Rat.ofScientific in
/-- C9 witness: a successful trim on a buffer with one loud-ends channel
and one all-silent channel. -/
theorem trimSilence_never_shortens_witness :
    (⟨some [[1, 0, 1], [0, 0, 0]], some 1, some 3, some 2⟩ : Proc).audio_data =
      some [[1, 0, 1], [0, 0, 0]] ∧
    (trim_silence ⟨some [[1, 0, 1], [0, 0, 0]], some 1, some 3, some 2⟩
        (1/100)).2 = true ∧
    ∃ rows2, (trim_silence ⟨some [[1, 0, 1], [0, 0, 0]], some 1, some 3, some 2⟩
        (1/100)).1.audio_data = some rows2 ∧
      rows2.length = ([[1, 0, 1], [0, 0, 0]] : List (List ℚ)).length ∧
      ∀ i, (rows2.getD i []).length =
          (([[1, 0, 1], [0, 0, 0]] : List (List ℚ)).getD i []).length ∧
        ((allSilentRow (1/100) (([[1, 0, 1], [0, 0, 0]] : List (List ℚ)).getD i []) ∨
            loudEndsRow (1/100) (([[1, 0, 1], [0, 0, 0]] : List (List ℚ)).getD i [])) →
          rows2.getD i [] = (([[1, 0, 1], [0, 0, 0]] : List (List ℚ)).getD i [])) :=
  ⟨rfl, by decide,
    trimSilence_never_shortens ⟨some [[1, 0, 1], [0, 0, 0]], some 1, some 3, some 2⟩
      [[1, 0, 1], [0, 0, 0]] (1/100) rfl (by decide)⟩

unseal Rat.add Rat.sub Rat.mul Rat.inv Rat.ofScientific in
/-- C6 counterexample: on a concrete loaded mono buffer (with all library
feature values instantiated to 0) extract_features returns a vector of 23
keys, not the claimed 18. -/
theorem extractFeatures_keycount_counterexample :
    (extract_features (fun _ => 0) (fun _ => 0) (fun _ _ => 0) (fun _ _ => 0)
        (fun _ _ => 0) (fun _ _ => 0) (fun _ _ => 0) (fun _ _ _ => 0)
        ⟨some [[1]], some 1, some 1, some 1⟩).map List.length = some 23 ∧
    featureKeys.length = 23 ∧ ¬ (featureKeys.length = 18) := by
  refine ⟨by decide, by decide, by decide⟩

/-- C6 amended: on every loaded buffer with a nonempty first channel,
extract_features returns a vector whose key list is exactly the 23 keys
mean, std, max, min, zero_crossing_rate, spectral_centroid,
spectral_bandwidth, spectral_rolloff, mfcc_1 .. mfcc_13, chroma_mean,
tonnetz — 23 keys, not 18, and the last key is tonnetz (not tonnetz_mean) —
for every instantiation of the library feature computations.  (All values
are rationals of the exact embedding; finiteness of the floating-point
values rests with the external librosa/numpy numerics, which have no source
in this repository.) -/
theorem extractFeatures_keys (sqrtQ : ℚ → ℚ) (zcr : List ℚ → ℚ)
    (centroid bandwidth rolloff chroma tonnetzF : List ℚ → ℚ → ℚ)
    (mfcc : ℕ → List ℚ → ℚ → ℚ) (p : Proc) (r0 : List ℚ) (rest : List (List ℚ))
    (h : p.audio_data = some (r0 :: rest)) (h0 : r0 ≠ []) :
    ∃ fv, extract_features sqrtQ zcr centroid bandwidth rolloff chroma tonnetzF
        mfcc p = some fv ∧
      fv.map Prod.fst = featureKeys ∧ featureKeys.length = 23 := by
  simp only [extract_features, h]
  have hmono : (if 1 < p.channels.getD 0 then avgRows (r0 :: rest) else r0).isEmpty
      = false := by
    rw [List.isEmpty_eq_false]
    by_cases hch : 1 < p.channels.getD 0
    · rw [if_pos hch]
      have hlen : (avgRows (r0 :: rest)).length = r0.length := by
        unfold avgRows
        rw [List.length_map, List.length_range]
        rfl
      intro hnil
      rw [hnil] at hlen
      simp only [List.length_nil] at hlen
      exact h0 (List.length_eq_zero.mp hlen.symm)
    · rw [if_neg hch]
      exact h0
  rw [hmono]
  simp only [Bool.false_eq_true, if_false]
  refine ⟨_, rfl, ?_, by decide⟩
  simp only [List.map_append, List.map_cons, List.map_nil, List.map_map,
    Function.comp_def]
  decide

unseal Rat.add Rat.sub Rat.mul Rat.inv Rat.ofScientific in
/-- C6 witness: the key list at a concrete loaded mono buffer with all
library feature computations instantiated to 0. -/
theorem extractFeatures_keys_witness :
    (⟨some [[1]], some 1, some 1, some 1⟩ : Proc).audio_data = some ([1] :: []) ∧
    ([1] : List ℚ) ≠ [] ∧
    ∃ fv, extract_features (fun _ => 0) (fun _ => 0) (fun _ _ => 0) (fun _ _ => 0)
        (fun _ _ => 0) (fun _ _ => 0) (fun _ _ => 0) (fun _ _ _ => 0)
        ⟨some [[1]], some 1, some 1, some 1⟩ = some fv ∧
      fv.map Prod.fst = featureKeys ∧ featureKeys.length = 23 :=
  ⟨rfl, by decide,
    extractFeatures_keys (fun _ => 0) (fun _ => 0) (fun _ _ => 0) (fun _ _ => 0)
      (fun _ _ => 0) (fun _ _ => 0) (fun _ _ => 0) (fun _ _ _ => 0)
      ⟨some [[1]], some 1, some 1, some 1⟩ [1] [] rfl (by decide)⟩

/-- C7: after normalize_audio with a positive target level on a loaded
rectangular buffer, every channel whose peak absolute value was positive
has peak exactly target_level, and every channel whose peak was 0 is left
unchanged (a silent channel stays silent; the positive-peak guard prevents
any division by zero). -/
theorem normalizeAudio_peak (p : Proc) (target_level : ℚ) (rows : List (List ℚ))
    (w : ℕ) (h : p.audio_data = some rows) (hw : ∀ r ∈ rows, r.length = w)
    (ht : 0 < target_level) :
    ∃ rows2, (normalize_audio p target_level).1.audio_data = some rows2 ∧
      rows2.length = rows.length ∧
      ∀ i, (rowPeak (rows.getD i []) = 0 → rows2.getD i [] = rows.getD i []) ∧
        (0 < rowPeak (rows.getD i []) →
          rowPeak (rows2.getD i []) = target_level) := by
  have hspec := normalize_audio_spec target_level h
  by_cases hw0 : w = 0
  · have hrows : (mapRowsE (normRow target_level) rows).1 = rows := by
      cases rows with
      | nil => rfl
      | cons r rs =>
        have hr : r = [] :=
          List.length_eq_zero.mp (by rw [hw r (List.mem_cons_self r rs), hw0])
        subst hr
        rfl
    refine ⟨rows, ?_, rfl, ?_⟩
    · rw [hspec]
      simp only [hrows]
    · intro i
      have hempty : rows.getD i [] = [] := by
        by_cases hi : i < rows.length
        · rw [List.getD_eq_getElem rows [] hi]
          exact List.length_eq_zero.mp
            (by rw [hw _ (List.getElem_mem hi), hw0])
        · exact List.getD_eq_default rows [] (le_of_not_lt hi)
      rw [hempty]
      exact ⟨fun _ => rfl, fun hpos => absurd hpos (by simp [rowPeak, listMax])⟩
  · have hok : ∀ r ∈ rows, normRow target_level r = Except.ok
        (if 0 < rowPeak r then r.map (fun x => x / rowPeak r * target_level)
         else r) := by
      intro r hr
      have hne : r.isEmpty = false := by
        rw [List.isEmpty_eq_false]
        intro hnil
        apply hw0
        rw [← hw r hr, hnil]
        rfl
      unfold normRow
      rw [hne]
      by_cases hp : 0 < rowPeak r
      · rw [if_neg Bool.false_ne_true, if_pos hp, if_pos hp]
      · rw [if_neg Bool.false_ne_true, if_neg hp, if_neg hp]
    rw [mapRowsE_all_ok hok] at hspec
    refine ⟨rows.map (fun r => if 0 < rowPeak r then
        r.map (fun x => x / rowPeak r * target_level) else r), ?_, ?_, ?_⟩
    · rw [hspec]
    · rw [List.length_map]
    · intro i
      by_cases hi : i < rows.length
      · rw [getD_map_lt _ hi]
        constructor
        · intro hzero
          rw [if_neg (by rw [hzero]; exact lt_irrefl 0)]
        · intro hpos
          rw [if_pos hpos]
          refine rowPeak_norm ?_ hpos ht
          rw [List.getD_eq_getElem rows [] hi]
          intro hnil
          apply hw0
          rw [← hw _ (List.getElem_mem hi), hnil]
          rfl
      · have hd1 : rows.getD i [] = [] :=
          List.getD_eq_default rows [] (le_of_not_lt hi)
        have hd2 : (rows.map (fun r => if 0 < rowPeak r then
            r.map (fun x => x / rowPeak r * target_level) else r)).getD i [] = [] :=
          List.getD_eq_default _ []
            (by rw [List.length_map]; exact le_of_not_lt hi)
        rw [hd1, hd2]
        exact ⟨fun _ => rfl, fun hpos => absurd hpos (by simp [rowPeak, listMax])⟩

unseal Rat.add Rat.sub Rat.mul Rat.inv Rat.ofScientific in
/-- C7 witness: a stereo buffer with one channel of peak 1/2 and one silent
channel, normalized to target 4/5. -/
theorem normalizeAudio_peak_witness :
    (⟨some [[1/2, 0], [0, 0]], some 1, some 2, some 2⟩ : Proc).audio_data =
      some [[1/2, 0], [0, 0]] ∧
    (∀ r ∈ ([[1/2, 0], [0, 0]] : List (List ℚ)), r.length = 2) ∧
    (0:ℚ) < 4/5 ∧
    ∃ rows2, (normalize_audio ⟨some [[1/2, 0], [0, 0]], some 1, some 2, some 2⟩
        (4/5)).1.audio_data = some rows2 ∧
      rows2.length = ([[1/2, 0], [0, 0]] : List (List ℚ)).length ∧
      ∀ i, (rowPeak (([[1/2, 0], [0, 0]] : List (List ℚ)).getD i []) = 0 →
          rows2.getD i [] = ([[1/2, 0], [0, 0]] : List (List ℚ)).getD i []) ∧
        (0 < rowPeak (([[1/2, 0], [0, 0]] : List (List ℚ)).getD i []) →
          rowPeak (rows2.getD i []) = 4/5) :=
  ⟨rfl, by decide, by decide,
    normalizeAudio_peak ⟨some [[1/2, 0], [0, 0]], some 1, some 2, some 2⟩ (4/5)
      [[1/2, 0], [0, 0]] 2 rfl (by decide) (by decide)⟩
